import Mathlib

/-!
Verification development for the Financial-Analytics-Application repository.

The Python sources are embedded shallowly:
  * `src/data_ingestion/models.py`, `repository.py`, `service.py` — the
    ingestion pipeline writing `market_data` rows to ClickHouse;
  * `src/api_service/models.py`, `services.py`, `views.py` — the quote API;
  * `src/api_service/marketdata_views.py` — the paginated read endpoints
    over the `eq_ohlcv` table.

Conventions of the embedding:
  * timestamps and calendar dates are integers (seconds, resp. days);
    `toDate` truncates a timestamp to its calendar day like Python's
    `datetime.date()` / ClickHouse `toDate`;
  * numeric cell values are `Option Int` where the Python code can see
    `None`, plain `Int` otherwise; float-specific behaviour is not modelled;
  * Python `//` (floor division, raising `ZeroDivisionError` on a zero
    divisor) is `pyFloorDiv` below; `Int.fdiv` is floor division, which
    matches Python on every sign combination;
  * external collaborators (yfinance, the ClickHouse server) are passed in
    as explicit function or list parameters; the ClickHouse tables involved
    are plain `MergeTree` tables (`finanalytics/views.py` DDL), so an
    `INSERT` appends rows and never merges by key;
  * string comparison (`ORDER BY ticker`, Python `sort(key=...)`) is
    code-point lexicographic order, `strLe` below.
-/

/-- Lexicographic code-point comparison on character lists: the order used by
Python string comparison and by ClickHouse `ORDER BY` on `String` columns. -/
def strLeAux : List Char → List Char → Bool
  | [], _ => true
  | _ :: _, [] => false
  | a :: as, b :: bs =>
      a.toNat < b.toNat || (a.toNat = b.toNat && strLeAux as bs)

/-- `strLe a b` is `a <= b` in code-point lexicographic string order. -/
def strLe (a b : String) : Bool := strLeAux a.data b.data

/-- ASCII uppercasing of one character, as Python `str.upper` acts on the
ASCII range used by stock tickers. -/
def upperChar (c : Char) : Char :=
  if 97 ≤ c.toNat ∧ c.toNat ≤ 122 then Char.ofNat (c.toNat - 32) else c

/-- Python `str.upper()` restricted to ASCII strings (tickers). -/
def upperStr (s : String) : String := ⟨s.data.map upperChar⟩

theorem strLeAux_trans (as bs cs : List Char) (h1 : strLeAux as bs = true)
    (h2 : strLeAux bs cs = true) : strLeAux as cs = true := by
  induction as generalizing bs cs with
  | nil => rfl
  | cons a as ih =>
    cases bs with
    | nil => simp [strLeAux] at h1
    | cons b bs =>
      cases cs with
      | nil => simp [strLeAux] at h2
      | cons c cs =>
        simp only [strLeAux, Bool.or_eq_true, Bool.and_eq_true, decide_eq_true_eq] at h1 h2 ⊢
        rcases h1 with h1 | ⟨h1e, h1r⟩
        · rcases h2 with h2 | ⟨h2e, h2r⟩
          · left; omega
          · left; omega
        · rcases h2 with h2 | ⟨h2e, h2r⟩
          · left; omega
          · right; exact ⟨by omega, ih bs cs h1r h2r⟩

theorem strLeAux_total (as bs : List Char) : strLeAux as bs = true ∨ strLeAux bs as = true := by
  induction as generalizing bs with
  | nil => left; rfl
  | cons a as ih =>
    cases bs with
    | nil => right; rfl
    | cons b bs =>
      simp only [strLeAux, Bool.or_eq_true, Bool.and_eq_true, decide_eq_true_eq]
      rcases Nat.lt_trichotomy a.toNat b.toNat with h | h | h
      · left; left; exact h
      · rcases ih bs with hr | hr
        · left; right; exact ⟨h, hr⟩
        · right; right; exact ⟨h.symm, hr⟩
      · right; left; exact h

theorem char_eq_of_toNat_eq {a b : Char} (h : a.toNat = b.toNat) : a = b := by
  have hv : a.val = b.val := UInt32.ext h
  cases a; cases b; cases hv; rfl

theorem strLeAux_antisymm (as bs : List Char) (h1 : strLeAux as bs = true)
    (h2 : strLeAux bs as = true) : as = bs := by
  induction as generalizing bs with
  | nil =>
    cases bs with
    | nil => rfl
    | cons b bs => simp [strLeAux] at h2
  | cons a as ih =>
    cases bs with
    | nil => simp [strLeAux] at h1
    | cons b bs =>
      simp only [strLeAux, Bool.or_eq_true, Bool.and_eq_true, decide_eq_true_eq] at h1 h2
      have hab : a.toNat = b.toNat := by omega
      have hrest : strLeAux as bs = true := by
        rcases h1 with h1 | ⟨_, h1r⟩
        · omega
        · exact h1r
      have hrest' : strLeAux bs as = true := by
        rcases h2 with h2 | ⟨_, h2r⟩
        · omega
        · exact h2r
      rw [char_eq_of_toNat_eq hab, ih bs hrest hrest']

/-- The proposition form of `strLe`, used as the sort relation. -/
def stringLe (a b : String) : Prop := strLe a b = true

instance : DecidableRel stringLe := fun a b =>
  inferInstanceAs (Decidable (strLe a b = true))

instance : IsTotal String stringLe := ⟨fun a b => strLeAux_total a.data b.data⟩

instance : IsTrans String stringLe :=
  ⟨fun _ _ _ h1 h2 => strLeAux_trans _ _ _ h1 h2⟩

theorem string_eq_of_data_eq {a b : String} (h : a.data = b.data) : a = b := by
  cases a; cases b; cases h; rfl

instance : IsAntisymm String stringLe :=
  ⟨fun _ _ h1 h2 => string_eq_of_data_eq (strLeAux_antisymm _ _ h1 h2)⟩

/-- Truncate a timestamp (seconds) to its calendar day, as Python
`datetime.date()` and ClickHouse `toDate` do. -/
def toDate (ts : Int) : Int := Int.fdiv ts 86400

/-- Python truthiness of an optional numeric value: `None` and `0` are falsy.
Used by `x if x else 0` patterns in `repository.py`. -/
def pyTruthy (v : Option Int) : Bool :=
  match v with
  | none => false
  | some x => x ≠ 0

/-- `float(x) if x else 0` / `int(x) if x else 0` from
`ClickHouseRepository.save` / `save_batch` (repository.py lines 59-64,
103-108). -/
def pyFalsyZero (v : Option Int) : Int :=
  if pyTruthy v then v.getD 0 else 0

/- ------------------------------------------------------------------ -/
/- Ingestion pipeline: data_ingestion/models.py, repository.py, service.py -/
/- ------------------------------------------------------------------ -/

/-- One row of the yfinance history DataFrame (`ticker.history(...)`):
a DatetimeIndex entry plus the numeric columns the service reads. -/
structure ProviderBar where
  timestamp : Int
  open_price : Int
  high : Int
  low : Int
  close : Int
  volume : Int
deriving DecidableEq

/-- `MarketData` from data_ingestion/models.py: the in-memory record the
service builds before persisting.  Field defaults in the Python constructor
are `None`, hence the `Option` fields; `created_at` is `datetime.now()`,
not relevant to any claim and fixed to the value the service ran at. -/
structure MarketData where
  symbol : String
  timestamp : Int
  date : Int
  open_price : Option Int
  high : Option Int
  low : Option Int
  close : Option Int
  volume : Option Int
  adjusted_close : Option Int
  created_at : Int
deriving DecidableEq

/-- The tuple actually inserted into the `market_data` table by
`ClickHouseRepository.save` / `save_batch`: zero-defaulted numeric fields. -/
structure StoredRow where
  symbol : String
  timestamp : Int
  date : Int
  open_price : Int
  high : Int
  low : Int
  close : Int
  volume : Int
  adjusted_close : Int
  created_at : Int
deriving DecidableEq

/-- Building the insert tuple from a `MarketData` record
(repository.py lines 55-66 and 99-110). -/
def prepareRow (m : MarketData) : StoredRow :=
  { symbol := m.symbol
    timestamp := m.timestamp
    date := m.date
    open_price := pyFalsyZero m.open_price
    high := pyFalsyZero m.high
    low := pyFalsyZero m.low
    close := pyFalsyZero m.close
    volume := pyFalsyZero m.volume
    adjusted_close := pyFalsyZero m.adjusted_close
    created_at := m.created_at }

/-- `ClickHouseRepository.save`: a single `INSERT INTO market_data`.
The table is a plain `MergeTree`, so the insert appends a row
unconditionally — there is no key-based merge or upsert. -/
def repository_save (store : List StoredRow) (m : MarketData) : List StoredRow :=
  store ++ [prepareRow m]

/-- `ClickHouseRepository.save_batch`: returns the new store contents and the
count reported back (`len(data)`); an empty batch saves nothing.  The
per-row `try/except` in the Python code cannot fire in this model because
tuple preparation is total. -/
def repository_save_batch (store : List StoredRow) (ms : List MarketData) :
    List StoredRow × Nat :=
  match ms with
  | [] => (store, 0)
  | _ =>
      let data := ms.map prepareRow
      (store ++ data, data.length)

/-- service.py lines 53-63: mapping one history row to a `MarketData`.
`date` truncates the index timestamp to a day; `adjusted_close` is given
`row['Close']` (the same value as `close`). -/
def marketDataOfBar (symbol : String) (b : ProviderBar) : MarketData :=
  { symbol := symbol
    timestamp := b.timestamp
    date := toDate b.timestamp
    open_price := some b.open_price
    high := some b.high
    low := some b.low
    close := some b.close
    volume := some b.volume
    adjusted_close := some b.close
    created_at := 0 }

/-- `DataIngestionService.ingest_historical_data`: fetch a window for one
symbol, map rows, save the batch.  Any provider exception is swallowed and
reported as 0 records; an empty frame is reported as 0 records.  The
provider is the `fetch` parameter (yfinance `Ticker.history`). -/
def ingest_historical_data (store : List StoredRow)
    (fetch : String → Nat → Except String (List ProviderBar))
    (symbol : String) (days : Nat) : List StoredRow × Nat :=
  match fetch symbol days with
  | .error _ => (store, 0)
  | .ok hist =>
      match hist with
      | [] => (store, 0)
      | _ => repository_save_batch store (hist.map (marketDataOfBar symbol))

/-- `DataIngestionService.ingest_historical_data_batch`: iterate the symbol
list, accumulating the per-symbol record counts.  The `try/except continue`
around each call cannot fire because the single-symbol operation swallows
every exception itself; the inter-call `time.sleep(1)` has no observable
effect in this model. -/
def ingest_historical_data_batch (store : List StoredRow)
    (fetch : String → Nat → Except String (List ProviderBar))
    (symbols : List String) (days : Nat) : List StoredRow × Nat :=
  symbols.foldl
    (fun acc s =>
      let r := ingest_historical_data acc.1 fetch s days
      (r.1, acc.2 + r.2))
    (store, 0)

/-- `DataIngestionService.ingest_current_quote`: the quote provider either
fails (exception), reports no data (`None`, covering both the missing-info
and the empty-history early returns), or yields the latest session bar,
which is saved through `repository_save`. -/
def ingest_current_quote (store : List StoredRow)
    (fetchQuote : String → Except String (Option ProviderBar))
    (symbol : String) : List StoredRow × Bool :=
  match fetchQuote symbol with
  | .error _ => (store, false)
  | .ok none => (store, false)
  | .ok (some bar) => (repository_save store (marketDataOfBar symbol bar), true)

/-- `DataIngestionService.ingest_current_quotes_batch`: iterate, counting
successes; per-symbol failures are skipped. -/
def ingest_current_quotes_batch (store : List StoredRow)
    (fetchQuote : String → Except String (Option ProviderBar))
    (symbols : List String) : List StoredRow × Nat :=
  symbols.foldl
    (fun acc s =>
      let r := ingest_current_quote acc.1 fetchQuote s
      (r.1, acc.2 + (if r.2 then 1 else 0)))
    (store, 0)

/-- Number of `market_data` rows stored for one (symbol, trading date) pair:
what `ClickHouseRepository.exists` counts (repository.py line 146) and what
a `WHERE symbol = .. AND date = ..` query observes. -/
def countPair (store : List StoredRow) (s : String) (d : Int) : Nat :=
  (store.filter (fun r => r.symbol = s ∧ r.date = d)).length

/- ------------------------------------------------------------------ -/
/- Read API: api_service/marketdata_views.py over the eq_ohlcv table   -/
/- ------------------------------------------------------------------ -/

/-- One row of the `eq_ohlcv` table as the read views see it
(`SELECT ticker, datetime, open, high, low, close, volume`).  The views
defensively test each cell against `None`, so cells are `Option`-valued
here; `open` is a Lean keyword, hence the field name `open_price`. -/
structure OhlcvRow where
  ticker : String
  datetime : Int
  open_price : Option Int
  high : Option Int
  low : Option Int
  close : Option Int
  volume : Option Int
deriving DecidableEq

/-- The JSON dictionary built for one bar by the read views
(marketdata_views.py lines 190-199, 250-258, 340-349, 372-381). -/
structure RenderedBar where
  ticker : String
  datetime : Option Int
  open_price : Option Int
  high : Option Int
  low : Option Int
  close : Option Int
  volume : Option Int
deriving DecidableEq

/-- Rendering one result row to its JSON dictionary: every numeric cell is
passed through when it `is not None`, and `None` otherwise (the
`float(row[i]) if row[i] is not None else None` pattern); the datetime cell
is isoformatted when truthy — a datetime value is always truthy, so only
`None` maps to `null`. -/
def renderRow (r : OhlcvRow) : RenderedBar :=
  { ticker := r.ticker
    datetime := some r.datetime
    open_price := r.open_price
    high := r.high
    low := r.low
    close := r.close
    volume := r.volume }

/-- `HistoricalQuote` from api_service/models.py. -/
structure HistoricalQuote where
  symbol : String
  timestamp : Option Int
  open_price : Option Int
  high : Option Int
  low : Option Int
  close : Option Int
  volume : Option Int
  adjusted_close : Option Int
deriving DecidableEq

/-- The dictionary produced by `HistoricalQuote.to_dict`
(api_service/models.py lines 54-64). -/
structure HistoricalQuoteDict where
  symbol : String
  timestamp : Option Int
  open_price : Option Int
  high : Option Int
  low : Option Int
  close : Option Int
  volume : Option Int
  adjustedClose : Option Int
deriving DecidableEq

/-- `HistoricalQuote.to_dict`: price fields use the truthiness pattern
`float(x) if x else None` (so `0` maps to `null`), while `volume` is passed
through with no conversion at all. -/
def HistoricalQuote.to_dict (q : HistoricalQuote) : HistoricalQuoteDict :=
  { symbol := q.symbol
    timestamp := q.timestamp
    open_price := if pyTruthy q.open_price then q.open_price else none
    high := if pyTruthy q.high then q.high else none
    low := if pyTruthy q.low then q.low else none
    close := if pyTruthy q.close then q.close else none
    volume := q.volume
    adjustedClose := if pyTruthy q.adjusted_close then q.adjusted_close else none }

/-- Python `//` on integers: floor division, `ZeroDivisionError` on a zero
divisor. -/
inductive PyError where
  | zeroDivision
deriving DecidableEq

def pyFloorDiv (a b : Int) : Except PyError Int :=
  if b = 0 then .error .zeroDivision else .ok (Int.fdiv a b)

/-- The pagination object every paginated endpoint builds
(marketdata_views.py lines 86-95, 210-217, 391-398). -/
structure Pagination where
  page : Int
  perPage : Int
  totalItems : Int
  totalPages : Int
  hasNext : Bool
  hasPrev : Bool
deriving DecidableEq

/-- `total_pages = (total_count + per_page - 1) // per_page` followed by the
response dictionary.  The division raises `ZeroDivisionError` when
`per_page = 0`, which the views' blanket `except Exception` turns into a
500 response. -/
def paginationOf (page per_page total_count : Int) : Except PyError Pagination :=
  match pyFloorDiv (total_count + per_page - 1) per_page with
  | .error e => .error e
  | .ok total_pages =>
      .ok { page := page
            perPage := per_page
            totalItems := total_count
            totalPages := total_pages
            hasNext := page < total_pages
            hasPrev := page > 1 }

/-- The latest row of a list under `ORDER BY datetime DESC LIMIT 1` /
`ROW_NUMBER() OVER (... ORDER BY datetime DESC) = 1`: the leftmost row of
maximal `datetime` (SQL leaves ties unspecified; the model picks a fixed
representative). -/
def pickLatest : List OhlcvRow → Option OhlcvRow
  | [] => none
  | r :: rest =>
      match pickLatest rest with
      | none => some r
      | some b => if r.datetime < b.datetime then some b else some r

/-- The rows of `eq_ohlcv` for one ticker. -/
def rowsFor (store : List OhlcvRow) (ticker : String) : List OhlcvRow :=
  store.filter (fun r => r.ticker = ticker)

/-- The single latest row for one ticker, as both the per-ticker helper
query and the rank-1 partition pattern compute it. -/
def latestRow (store : List OhlcvRow) (ticker : String) : Option OhlcvRow :=
  pickLatest (rowsFor store ticker)

/-- `fetch_latest_for_ticker` (marketdata_views.py lines 234-262): the
latest row for one ticker, already rendered to its JSON dictionary;
`None` when the ticker has no rows. -/
def fetch_latest_for_ticker (store : List OhlcvRow) (ticker : String) :
    Option RenderedBar :=
  (latestRow store ticker).map renderRow

/-- The distinct tickers present in the store, in first-occurrence order
(the partition universe of the rank-1 subquery). -/
def distinctTickers (store : List OhlcvRow) : List String :=
  (store.map (fun r => r.ticker)).dedup

/-- Sort key of the final `ORDER BY ticker` / `sort(key=lambda x: x['ticker'])`. -/
def barLe (a b : RenderedBar) : Prop := stringLe a.ticker b.ticker

instance : DecidableRel barLe := fun a b =>
  inferInstanceAs (Decidable (stringLe a.ticker b.ticker))

instance : IsTotal RenderedBar barLe :=
  ⟨fun a b => IsTotal.total (r := stringLe) a.ticker b.ticker⟩

instance : IsTrans RenderedBar barLe :=
  ⟨fun _ _ _ h1 h2 => Trans.trans (r := stringLe) (s := stringLe) h1 h2⟩

/-- The rank-1 rows of the sequential `ROW_NUMBER` query restricted to a
requested ticker set, in `ORDER BY ticker` order: one latest row per
distinct ticker of the store that is in the set. -/
def rank1Rows (store : List OhlcvRow) (symbols_list : List String) : List OhlcvRow :=
  (((distinctTickers store).filter (fun t => t ∈ symbols_list)).insertionSort
      stringLe).filterMap (latestRow store)

/-- The rank-1 rows over the whole store (the no-symbols branch). -/
def rank1RowsAll (store : List OhlcvRow) : List OhlcvRow :=
  ((distinctTickers store).insertionSort stringLe).filterMap (latestRow store)

/-- The sequential branch of `get_latest_marketdata` for an explicit symbol
list (marketdata_views.py lines 317-351): rank-1 rows ordered by ticker,
`LIMIT per_page OFFSET offset`, rendered. -/
def get_latest_sequential (store : List OhlcvRow) (symbols_list : List String)
    (per_page offset : Nat) : List RenderedBar :=
  (((rank1Rows store symbols_list).drop offset).take per_page).map renderRow

/-- The parallel branch of `get_latest_marketdata` (lines 293-315): the
symbol list itself is sliced `[offset : offset + per_page]`, one per-ticker
fetch is submitted per sliced symbol, results are collected in completion
order (`as_completed`) dropping the `None`s, then sorted by ticker.
`completion` is the order in which the futures complete: any permutation
of the sliced symbol list. -/
def get_latest_parallel (store : List OhlcvRow) (completion : List String) :
    List RenderedBar :=
  (completion.filterMap (fetch_latest_for_ticker store)).insertionSort barLe

/-- The slice of the symbol list whose fetches are submitted in the
parallel branch: `symbols_list[offset : offset + per_page]`. -/
def parallelSlice (symbols_list : List String) (per_page offset : Nat) :
    List String :=
  (symbols_list.drop offset).take per_page

/-- Response of `GET /api/marketdata/symbols` as far as the claims observe
it: HTTP status, the page of tickers, and the pagination object.  The
per-ticker aggregate statistics (record count, first/last date) are not
referenced by any claim and are omitted from the page payload. -/
structure SymbolsResponse where
  status : Nat
  symbols : List String
  pagination : Option Pagination
deriving DecidableEq

/-- `get_symbols` (marketdata_views.py lines 28-109).  `masters` is the
`eq_masters` ticker column.  `per_page = min(request, 100)`; `page < 1` is a
400; the catalog query groups by ticker and orders by ticker with
`LIMIT/OFFSET`; `total_count` is `COUNT(DISTINCT ticker)`; the pagination
division by a zero `per_page` raises, and the blanket `except Exception`
maps it to a 500. -/
def get_symbols (masters : List String) (page per_page_param : Int) :
    SymbolsResponse :=
  let per_page := min per_page_param 100
  if page < 1 then
    { status := 400, symbols := [], pagination := none }
  else
    let offset := ((page - 1) * per_page).toNat
    let entries := ((masters.dedup.insertionSort stringLe).drop offset).take per_page.toNat
    let total_count := (masters.dedup.length : Int)
    match paginationOf page per_page total_count with
    | .error _ => { status := 500, symbols := [], pagination := none }
    | .ok pag => { status := 200, symbols := entries, pagination := some pag }

/-- Response of `GET /api/marketdata/:symbol`. -/
structure MarketDataResponse where
  status : Nat
  ticker : String
  data : List RenderedBar
  dateRange : Option (Int × Int)
  pagination : Option Pagination
deriving DecidableEq

/-- The date-defaulting logic of `get_marketdata_by_symbol`
(marketdata_views.py lines 135-144): a missing `to` defaults to today, a
missing `from` defaults to `to - 30 days`.  Dates are day numbers and the
parameters are already-parsed optional dates (a malformed date string is a
400 upstream of this logic). -/
def resolveDateRange (from_param to_param : Option Int) (today : Int) :
    Int × Int :=
  let to_date := match to_param with | none => today | some t => t
  let from_date := match from_param with | none => to_date - 30 | some f => f
  (from_date, to_date)

/-- Descending `ORDER BY datetime` of the per-symbol history query. -/
def dtDesc (a b : OhlcvRow) : Prop := b.datetime ≤ a.datetime

instance : DecidableRel dtDesc := fun a b =>
  inferInstanceAs (Decidable (b.datetime ≤ a.datetime))

instance : IsTotal OhlcvRow dtDesc := ⟨fun a b => le_total b.datetime a.datetime⟩

instance : IsTrans OhlcvRow dtDesc := ⟨fun _ _ _ h1 h2 => le_trans h2 h1⟩

/-- `get_marketdata_by_symbol` (marketdata_views.py lines 112-231):
`per_page = min(request, 1000)`, `page < 1` → 400, date defaulting as in
`resolveDateRange`, `from > to` → 400, then the windowed scan
`WHERE ticker = upper(symbol) AND toDate(datetime) BETWEEN from AND to
ORDER BY datetime DESC LIMIT per_page OFFSET offset`, a `COUNT(*)` of the
same window, rendering, and the pagination object (500 on the zero
`per_page` division). -/
def get_marketdata_by_symbol (store : List OhlcvRow) (symbol : String)
    (from_param to_param : Option Int) (page per_page_param today : Int) :
    MarketDataResponse :=
  let per_page := min per_page_param 1000
  if page < 1 then
    { status := 400, ticker := symbol, data := [], dateRange := none, pagination := none }
  else
    let fromTo := resolveDateRange from_param to_param today
    if fromTo.1 > fromTo.2 then
      { status := 400, ticker := symbol, data := [], dateRange := none, pagination := none }
    else
      let offset := ((page - 1) * per_page).toNat
      let window := store.filter (fun r =>
        r.ticker = upperStr symbol ∧
        fromTo.1 ≤ toDate r.datetime ∧ toDate r.datetime ≤ fromTo.2)
      let rows := ((window.insertionSort dtDesc).drop offset).take per_page.toNat
      let total_count := (window.length : Int)
      match paginationOf page per_page total_count with
      | .error _ =>
          { status := 500, ticker := symbol, data := [], dateRange := none,
            pagination := none }
      | .ok pag =>
          { status := 200, ticker := upperStr symbol, data := rows.map renderRow,
            dateRange := some fromTo, pagination := some pag }

/-- Response of `GET /api/marketdata/latest`. -/
structure LatestResponse where
  status : Nat
  data : List RenderedBar
  pagination : Option Pagination
deriving DecidableEq

/-- `get_latest_marketdata` (marketdata_views.py lines 265-412).
`symbols_param` is the already-split, stripped and uppercased symbol list
(`[s.strip().upper() for s in symbols_param.split(',')]`), `none` when the
query parameter is absent.  When parallelism is on and more than one symbol
is requested, the symbol list is sliced first and the per-ticker fetches
run concurrently, completing in the order `completion` (a permutation of
the slice); otherwise the rank-1 window query runs with
`ORDER BY ticker LIMIT/OFFSET`.  `total_count` is the requested list's
length, or `COUNT(DISTINCT ticker)` without a symbol list. -/
def get_latest_marketdata (store : List OhlcvRow)
    (symbols_param : Option (List String)) (page per_page_param : Int)
    (use_parallel : Bool) (completion : List String) : LatestResponse :=
  let per_page := min per_page_param 100
  if page < 1 then
    { status := 400, data := [], pagination := none }
  else
    let offset := ((page - 1) * per_page).toNat
    match symbols_param with
    | some symbols_list =>
        let market_data :=
          if use_parallel ∧ symbols_list.length > 1 then
            get_latest_parallel store completion
          else
            get_latest_sequential store symbols_list per_page.toNat offset
        let total_count := (symbols_list.length : Int)
        match paginationOf page per_page total_count with
        | .error _ => { status := 500, data := [], pagination := none }
        | .ok pag =>
            { status := 200, data := market_data, pagination := some pag }
    | none =>
        let market_data :=
          (((rank1RowsAll store).drop offset).take per_page.toNat).map renderRow
        let total_count := ((distinctTickers store).length : Int)
        match paginationOf page per_page total_count with
        | .error _ => { status := 500, data := [], pagination := none }
        | .ok pag =>
            { status := 200, data := market_data, pagination := some pag }

/- ------------------------------------------------------------------ -/
/- Quote API: api_service/services.py and views.py                     -/
/- ------------------------------------------------------------------ -/

/-- `StockQuote` from api_service/models.py, restricted to the fields the
multi-quote claim observes. -/
structure StockQuote where
  symbol : String
  name : String
  price : Option Int
deriving DecidableEq

/-- The failures `YahooFinanceService.get_stock_quote` can raise:
`RateLimitExceededException` from the rate limiter, or a
`YahooFinanceException` wrapping any fetch problem. -/
inductive QuoteError where
  | rateLimitExceeded
  | yahooFinance
deriving DecidableEq

/-- `YahooFinanceService.get_multiple_quotes` (services.py lines 158-185):
iterate the symbols, fetching each quote; `except Exception: continue`
catches every per-symbol failure — including `RateLimitExceededException`
raised by the rate limiter around `get_stock_quote` — so the result is the
list of successful quotes in input order.  The function itself can raise
nothing. -/
def get_multiple_quotes_service
    (get_stock_quote : String → Except QuoteError StockQuote)
    (symbols : List String) : List StockQuote :=
  symbols.filterMap (fun s => (get_stock_quote s).toOption)

/-- `get_multiple_quotes` view (views.py lines 97-128): a missing or empty
`symbols` array is a 400; otherwise the symbols are uppercased, the service
is called, and its quotes are returned with HTTP 200.  The view's
`except RateLimitExceededException` (429) and `except YahooFinanceException`
(500) handlers are unreachable from the service call because the service
catches every per-symbol failure itself. -/
def get_multiple_quotes_view
    (get_stock_quote : String → Except QuoteError StockQuote)
    (symbols : List String) : Nat × List StockQuote :=
  match symbols with
  | [] => (400, [])
  | _ =>
      (200, get_multiple_quotes_service get_stock_quote (symbols.map upperStr))

/- ------------------------------------------------------------------ -/
/- Helper lemmas                                                       -/
/- ------------------------------------------------------------------ -/

theorem pickLatest_eq_none {l : List OhlcvRow} (h : pickLatest l = none) :
    l = [] := by
  cases l with
  | nil => rfl
  | cons a t =>
    simp only [pickLatest] at h
    cases hp : pickLatest t with
    | none => simp [hp] at h
    | some b =>
        rw [hp] at h
        by_cases hd : a.datetime < b.datetime
        · simp [hd] at h
        · simp [hd] at h

theorem pickLatest_mem {l : List OhlcvRow} {r : OhlcvRow}
    (h : pickLatest l = some r) : r ∈ l := by
  induction l with
  | nil => cases h
  | cons a t ih =>
    simp only [pickLatest] at h
    cases hp : pickLatest t with
    | none =>
        simp only [hp] at h
        cases h
        exact List.mem_cons_self _ _
    | some b =>
        simp only [hp] at h
        by_cases hd : a.datetime < b.datetime
        · rw [if_pos hd] at h
          cases h
          exact List.mem_cons_of_mem _ (ih hp)
        · rw [if_neg hd] at h
          cases h
          exact List.mem_cons_self _ _

theorem pickLatest_max {l : List OhlcvRow} :
    ∀ {r : OhlcvRow}, pickLatest l = some r → ∀ x ∈ l, x.datetime ≤ r.datetime := by
  induction l with
  | nil => intro r h; cases h
  | cons a t ih =>
    intro r h x hx
    simp only [pickLatest] at h
    cases hp : pickLatest t with
    | none =>
        simp only [hp] at h
        cases h
        rcases List.mem_cons.mp hx with hx | hx
        · exact le_of_eq (congrArg _ hx)
        · rw [pickLatest_eq_none hp] at hx
          cases hx
    | some b =>
        simp only [hp] at h
        by_cases hd : a.datetime < b.datetime
        · rw [if_pos hd] at h
          cases h
          rcases List.mem_cons.mp hx with hx | hx
          · exact le_of_lt (hx ▸ hd)
          · exact ih hp x hx
        · rw [if_neg hd] at h
          cases h
          rcases List.mem_cons.mp hx with hx | hx
          · exact le_of_eq (congrArg _ hx)
          · exact le_trans (ih hp x hx) (not_lt.mp hd)

theorem pickLatest_isSome {l : List OhlcvRow} (h : l ≠ []) :
    (pickLatest l).isSome := by
  cases l with
  | nil => exact absurd rfl h
  | cons a t =>
    simp only [pickLatest]
    cases pickLatest t with
    | none => rfl
    | some b =>
        by_cases hd : a.datetime < b.datetime
        · simp [hd]
        · simp [hd]

theorem latestRow_spec {store : List OhlcvRow} {t : String} {r : OhlcvRow}
    (h : latestRow store t = some r) :
    r ∈ store ∧ r.ticker = t ∧
      ∀ x ∈ store, x.ticker = t → x.datetime ≤ r.datetime := by
  have hm := pickLatest_mem h
  have hmf := List.mem_filter.mp hm
  refine ⟨hmf.1, by simpa using hmf.2, ?_⟩
  intro x hx hxt
  exact pickLatest_max h x (List.mem_filter.mpr ⟨hx, by simpa using hxt⟩)

theorem latestRow_isSome_of_mem {store : List OhlcvRow} {t : String}
    (h : t ∈ store.map (fun r => r.ticker)) : (latestRow store t).isSome := by
  rcases List.mem_map.mp h with ⟨r, hr, hrt⟩
  have : r ∈ rowsFor store t := List.mem_filter.mpr ⟨hr, by simpa using hrt⟩
  exact pickLatest_isSome (List.ne_nil_of_mem this)

theorem fetch_latest_spec {store : List OhlcvRow} {t : String} {b : RenderedBar}
    (h : fetch_latest_for_ticker store t = some b) :
    ∃ row, latestRow store t = some row ∧ b = renderRow row := by
  rcases Option.map_eq_some'.mp h with ⟨row, hrow, hb⟩
  exact ⟨row, hrow, hb.symm⟩

theorem fetch_latest_ticker {store : List OhlcvRow} {t : String} {b : RenderedBar}
    (h : fetch_latest_for_ticker store t = some b) : b.ticker = t := by
  rcases fetch_latest_spec h with ⟨row, hrow, hb⟩
  rw [hb]
  exact (latestRow_spec hrow).2.1

theorem filterMap_key_pairwise {β : Type} (f : String → Option β) (key : β → String)
    (hkey : ∀ t b, f t = some b → key b = t) :
    ∀ {l : List String}, l.Nodup →
      (l.filterMap f).Pairwise (fun a b => key a ≠ key b) := by
  intro l
  induction l with
  | nil => intro _; simp
  | cons t l ih =>
    intro hnd
    rw [List.filterMap_cons]
    have hnd' := List.nodup_cons.mp hnd
    cases hf : f t with
    | none => exact ih hnd'.2
    | some b =>
        refine List.Pairwise.cons ?_ (ih hnd'.2)
        intro y hy
        rcases List.mem_filterMap.mp hy with ⟨t', ht', hft'⟩
        have hb : key b = t := hkey _ _ hf
        have hyk : key y = t' := hkey _ _ hft'
        rw [hb, hyk]
        intro heq
        exact hnd'.1 (heq ▸ ht')

theorem length_filter_le_one_of_pairwise {β : Type} (key : β → String)
    {l : List β} (h : l.Pairwise (fun a b => key a ≠ key b)) (t : String) :
    (l.filter (fun x => key x = t)).length ≤ 1 := by
  induction l with
  | nil => simp
  | cons a l ih =>
    have hpc := List.pairwise_cons.mp h
    by_cases ha : key a = t
    · have hnil : l.filter (fun x => key x = t) = [] := by
        rw [List.filter_eq_nil_iff]
        intro b hb
        simp only [decide_eq_true_eq]
        intro hbt
        exact hpc.1 b hb (ha ▸ hbt ▸ rfl)
      simp [List.filter_cons, ha, hnil]
    · simpa [List.filter_cons, ha] using ih hpc.2

theorem filterMap_fetch_eq (store : List OhlcvRow) (l : List String) :
    l.filterMap (fetch_latest_for_ticker store)
      = (l.filterMap (latestRow store)).map renderRow := by
  induction l with
  | nil => rfl
  | cons t l ih =>
    rw [List.filterMap_cons, List.filterMap_cons]
    cases h : latestRow store t with
    | none => simp [fetch_latest_for_ticker, h, ih]
    | some r => simp [fetch_latest_for_ticker, h, ih]

theorem filterMap_drop_of_isSome {α β : Type} (f : α → Option β) :
    ∀ (l : List α) (n : Nat), (∀ a ∈ l, (f a).isSome) →
      (l.filterMap f).drop n = (l.drop n).filterMap f := by
  intro l
  induction l with
  | nil => intro n _; simp
  | cons a l ih =>
    intro n hall
    cases n with
    | zero => simp
    | succ m =>
        have ha : (f a).isSome := hall a (List.mem_cons_self _ _)
        rcases Option.isSome_iff_exists.mp ha with ⟨b, hb⟩
        rw [List.filterMap_cons, hb, List.drop_succ_cons, List.drop_succ_cons]
        exact ih m (fun x hx => hall x (List.mem_cons_of_mem _ hx))

theorem filterMap_take_of_isSome {α β : Type} (f : α → Option β) :
    ∀ (l : List α) (n : Nat), (∀ a ∈ l, (f a).isSome) →
      (l.filterMap f).take n = (l.take n).filterMap f := by
  intro l
  induction l with
  | nil => intro n _; simp
  | cons a l ih =>
    intro n hall
    cases n with
    | zero => simp
    | succ m =>
        have ha : (f a).isSome := hall a (List.mem_cons_self _ _)
        rcases Option.isSome_iff_exists.mp ha with ⟨b, hb⟩
        rw [List.filterMap_cons, hb, List.take_succ_cons, List.take_succ_cons,
          List.filterMap_cons, hb]
        rw [ih m (fun x hx => hall x (List.mem_cons_of_mem _ hx))]

theorem sorted_eq_of_perm_of_ticker_inj :
    ∀ {l1 l2 : List RenderedBar}, l1.Perm l2 → l1.Sorted barLe → l2.Sorted barLe →
      (∀ a ∈ l1, ∀ b ∈ l1, a.ticker = b.ticker → a = b) → l1 = l2 := by
  intro l1
  induction l1 with
  | nil =>
    intro l2 hp _ _ _
    exact (hp.symm.eq_nil).symm
  | cons a t1 ih =>
    intro l2 hp hs1 hs2 hinj
    cases l2 with
    | nil => cases hp.eq_nil
    | cons b t2 =>
      have hab : a = b := by
        have hbmem : b ∈ a :: t1 := hp.mem_iff.mpr (List.mem_cons_self b t2)
        rcases List.mem_cons.mp hbmem with h | hbt1
        · exact h.symm
        · have hamem : a ∈ b :: t2 := hp.mem_iff.mp (List.mem_cons_self a t1)
          rcases List.mem_cons.mp hamem with h | hat2
          · exact h
          · have h1 : barLe a b := (List.sorted_cons.mp hs1).1 b hbt1
            have h2 : barLe b a := (List.sorted_cons.mp hs2).1 a hat2
            have hticker : a.ticker = b.ticker :=
              IsAntisymm.antisymm (r := stringLe) _ _ h1 h2
            exact hinj a (List.mem_cons_self _ _) b (List.mem_cons_of_mem _ hbt1) hticker
      subst hab
      have hp' : t1.Perm t2 := hp.cons_inv
      rw [ih hp' hs1.of_cons hs2.of_cons
        (fun x hx y hy hxy =>
          hinj x (List.mem_cons_of_mem _ hx) y (List.mem_cons_of_mem _ hy) hxy)]

/-- `(a + b - 1) // b` is the ceiling of `a / b` for a positive divisor:
the arithmetic fact behind every `total_pages` computation. -/
theorem fdiv_pred_eq_ceil (a b : Int) (hb : 0 < b) :
    Int.fdiv (a + b - 1) b = ⌈(a : ℚ) / (b : ℚ)⌉ := by
  have hb0 : (0:ℚ) < (b:ℚ) := by exact_mod_cast hb
  have hfe : Int.fdiv (a + b - 1) b = (a + b - 1) / b :=
    Int.fdiv_eq_ediv _ (le_of_lt hb)
  have hz := Int.ediv_add_emod (a + b - 1) b
  have hm1 : 0 ≤ (a + b - 1) % b := Int.emod_nonneg _ (ne_of_gt hb)
  have hm2 : (a + b - 1) % b < b := Int.emod_lt_of_pos _ hb
  rw [hfe]
  symm
  rw [Int.ceil_eq_iff]
  constructor
  · rw [lt_div_iff₀ hb0]
    have hint : ((a + b - 1) / b - 1) * b < a := by nlinarith [hz, hm1, hm2]
    exact_mod_cast hint
  · rw [div_le_iff₀ hb0]
    have hint : a ≤ ((a + b - 1) / b) * b := by nlinarith [hz, hm1, hm2]
    exact_mod_cast hint

/-- For a positive `per_page` the pagination construction succeeds and has
the shape every endpoint returns. -/
theorem paginationOf_ok (page per_page total : Int) (hper : 0 < per_page) :
    ∃ p, paginationOf page per_page total = .ok p ∧
      p.page = page ∧ p.perPage = per_page ∧ p.totalItems = total ∧
      p.totalPages = ⌈(total : ℚ) / (per_page : ℚ)⌉ ∧
      (p.hasNext = true ↔ page < p.totalPages) ∧
      (p.hasPrev = true ↔ 1 < page) := by
  unfold paginationOf pyFloorDiv
  rw [if_neg (ne_of_gt hper)]
  refine ⟨_, rfl, rfl, rfl, rfl, ?_, ?_, ?_⟩
  · exact fdiv_pred_eq_ceil _ _ hper
  · simp
  · simp [gt_iff_lt]

/- ------------------------------------------------------------------ -/
/- Claims                                                              -/
/- ------------------------------------------------------------------ -/

/-- C5: for `get_marketdata_by_symbol`, omitting both date bounds yields the
trailing 30-day window ending today (`to = today` and `to - from = 30`
days); omitting only `to` defaults it to today; omitting only `from`
defaults it to `to - 30` days. -/
theorem C5_default_date_window (today f t : Int) :
    resolveDateRange none none today = (today - 30, today) ∧
    (resolveDateRange none none today).2 - (resolveDateRange none none today).1 = 30 ∧
    (resolveDateRange (some f) none today).2 = today ∧
    resolveDateRange none (some t) today = (t - 30, t) := by
  refine ⟨rfl, ?_, rfl, rfl⟩
  show today - (today - 30) = 30
  omega

/-- C9: on every paginated endpoint, a request with `per_page = 0` and a
valid page is not rejected as a 400 validation error; the bound check only
clamps the maximum, and the `total_pages` division by zero raises, so the
blanket exception handler produces a 500 response. -/
theorem C9_per_page_zero_is_500
    (masters : List String) (store : List OhlcvRow) (symbol : String)
    (symbols_param : Option (List String)) (use_parallel : Bool)
    (completion : List String) (today page : Int) (h : 1 ≤ page) :
    ((get_symbols masters page 0).status = 500 ∧
      (get_symbols masters page 0).status ≠ 400) ∧
    ((get_marketdata_by_symbol store symbol none none page 0 today).status = 500 ∧
      (get_marketdata_by_symbol store symbol none none page 0 today).status ≠ 400) ∧
    ((get_latest_marketdata store symbols_param page 0 use_parallel
        completion).status = 500 ∧
      (get_latest_marketdata store symbols_param page 0 use_parallel
        completion).status ≠ 400) := by
  have hnotlt : ¬ page < 1 := not_lt.mpr h
  have hmin100 : min (0 : Int) 100 = 0 := min_eq_left (by norm_num)
  have hmin1000 : min (0 : Int) 1000 = 0 := min_eq_left (by norm_num)
  have hpag : ∀ tc : Int, paginationOf page 0 tc = .error .zeroDivision := by
    intro tc
    unfold paginationOf pyFloorDiv
    rw [if_pos rfl]
  refine ⟨?_, ?_, ?_⟩
  · unfold get_symbols
    rw [if_neg hnotlt, hmin100]
    simp [hpag]
  · have hnotgt : ¬ ((resolveDateRange none none today).1 >
        (resolveDateRange none none today).2) := by
      show ¬ (today - 30 > today)
      omega
    unfold get_marketdata_by_symbol
    rw [if_neg hnotlt, hmin1000]
    simp only [if_neg hnotgt]
    simp [hpag]
  · unfold get_latest_marketdata
    rw [if_neg hnotlt, hmin100]
    cases symbols_param with
    | none => simp [hpag]
    | some syms => simp [hpag]

/-- C9 witness: `per_page = 0` with page 1 on all three endpoints. -/
theorem C9_witness :
    1 ≤ (1 : Int) ∧
    (((get_symbols ["AAPL"] 1 0).status = 500 ∧
      (get_symbols ["AAPL"] 1 0).status ≠ 400) ∧
    ((get_marketdata_by_symbol [] "AAPL" none none 1 0 1).status = 500 ∧
      (get_marketdata_by_symbol [] "AAPL" none none 1 0 1).status ≠ 400) ∧
    ((get_latest_marketdata [] none 1 0 true []).status = 500 ∧
      (get_latest_marketdata [] none 1 0 true []).status ≠ 400)) :=
  ⟨by norm_num,
    C9_per_page_zero_is_500 ["AAPL"] [] "AAPL" none true [] 1 1 (by norm_num)⟩

/-- C10: the `POST /quotes` multi-symbol endpoint with a non-empty symbol
list returns HTTP 200 (never 429) with the quotes of exactly the successful
symbols in input order, because `get_multiple_quotes` catches and skips
every per-symbol failure, including `RateLimitExceededException`. -/
theorem C10_multi_quote_rate_limit_skipped
    (get_stock_quote : String → Except QuoteError StockQuote)
    (symbols : List String) (h : symbols ≠ []) :
    (get_multiple_quotes_view get_stock_quote symbols).1 = 200 ∧
    (get_multiple_quotes_view get_stock_quote symbols).1 ≠ 429 ∧
    (get_multiple_quotes_view get_stock_quote symbols).2 =
      (symbols.map upperStr).filterMap
        (fun s => (get_stock_quote s).toOption) := by
  cases symbols with
  | nil => exact absurd rfl h
  | cons a l => exact ⟨rfl, by show (200 : Nat) ≠ 429; decide, rfl⟩

/-- A quote fetcher whose second symbol hits the rate limiter. -/
def c10fetch : String → Except QuoteError StockQuote := fun s =>
  if s = "GOOGL" then .error .rateLimitExceeded
  else .ok { symbol := s, name := s, price := some 100 }

/-- C10 witness: three symbols, the middle one rate-limited, still a 200
with the other two quotes in order. -/
theorem C10_witness :
    (["aapl", "googl", "msft"] : List String) ≠ [] ∧
    ((get_multiple_quotes_view c10fetch ["aapl", "googl", "msft"]).1 = 200 ∧
      (get_multiple_quotes_view c10fetch ["aapl", "googl", "msft"]).1 ≠ 429 ∧
      (get_multiple_quotes_view c10fetch ["aapl", "googl", "msft"]).2 =
        ((["aapl", "googl", "msft"] : List String).map upperStr).filterMap
          (fun s => (c10fetch s).toOption)) :=
  ⟨by decide, C10_multi_quote_rate_limit_skipped c10fetch _ (by decide)⟩

/-- C7: in both batch ingestion operations, a symbol whose single-symbol
ingestion fails (provider exception or no-data result) contributes nothing
and does not disturb the processing of the remaining symbols: the batch
result is the same as if the failing symbol had not been in the list. -/
theorem C7_batch_partial_failure
    (store : List StoredRow)
    (fetch : String → Nat → Except String (List ProviderBar))
    (fetchQuote : String → Except String (Option ProviderBar))
    (days : Nat) (l1 l2 : List String) (x : String)
    (hx : (∃ e, fetch x days = .error e) ∨ fetch x days = .ok [])
    (hq : (∃ e, fetchQuote x = .error e) ∨ fetchQuote x = .ok none) :
    ingest_historical_data_batch store fetch (l1 ++ x :: l2) days
      = ingest_historical_data_batch store fetch (l1 ++ l2) days ∧
    ingest_current_quotes_batch store fetchQuote (l1 ++ x :: l2)
      = ingest_current_quotes_batch store fetchQuote (l1 ++ l2) := by
  constructor
  · unfold ingest_historical_data_batch
    rw [List.foldl_append, List.foldl_append, List.foldl_cons]
    congr 1
    have hsingle : ∀ st : List StoredRow,
        ingest_historical_data st fetch x days = (st, 0) := by
      intro st
      unfold ingest_historical_data
      rcases hx with ⟨e, he⟩ | he
      · rw [he]
      · rw [he]
    rw [hsingle]
    simp
  · unfold ingest_current_quotes_batch
    rw [List.foldl_append, List.foldl_append, List.foldl_cons]
    congr 1
    have hsingle : ∀ st : List StoredRow,
        ingest_current_quote st fetchQuote x = (st, false) := by
      intro st
      unfold ingest_current_quote
      rcases hq with ⟨e, he⟩ | he
      · rw [he]
      · rw [he]
    rw [hsingle]
    simp

/-- A provider that fails for the symbol "C" and returns one bar otherwise;
a quote provider that reports no data for "C" and a bar otherwise. -/
def c7bar : ProviderBar :=
  { timestamp := 86400, open_price := 10, high := 12, low := 9, close := 11,
    volume := 1000 }

def c7fetch : String → Nat → Except String (List ProviderBar) := fun s _ =>
  if s = "C" then .error "HTTPError" else .ok [c7bar]

def c7fetchQuote : String → Except String (Option ProviderBar) := fun s =>
  if s = "C" then .ok none else .ok (some c7bar)

/-- C7 witness: five symbols of which "C" fails; the batch result equals the
result for the remaining four symbols. -/
theorem C7_witness :
    ((∃ e, c7fetch "C" 30 = .error e) ∨ c7fetch "C" 30 = .ok []) ∧
    ((∃ e, c7fetchQuote "C" = .error e) ∨ c7fetchQuote "C" = .ok none) ∧
    (ingest_historical_data_batch [] c7fetch
        (["A", "B"] ++ "C" :: ["D", "E"]) 30
      = ingest_historical_data_batch [] c7fetch (["A", "B"] ++ ["D", "E"]) 30 ∧
    ingest_current_quotes_batch [] c7fetchQuote (["A", "B"] ++ "C" :: ["D", "E"])
      = ingest_current_quotes_batch [] c7fetchQuote (["A", "B"] ++ ["D", "E"])) :=
  ⟨Or.inl ⟨"HTTPError", rfl⟩, Or.inr rfl,
    C7_batch_partial_failure [] c7fetch c7fetchQuote 30 ["A", "B"] ["D", "E"] "C"
      (Or.inl ⟨"HTTPError", rfl⟩) (Or.inr rfl)⟩

/-- A provider returning one bar on day 1 for any symbol and window. -/
def c8fetch : String → Nat → Except String (List ProviderBar) := fun _ _ =>
  .ok [{ timestamp := 86400, open_price := 100, high := 101, low := 99,
         close := 100, volume := 1000 }]

/-- C8 counterexample: ingesting with the lowercase input "aapl" persists a
row whose symbol is the string "aapl" — not its uppercase normalization. -/
theorem C8_counterexample :
    ((ingest_historical_data [] c8fetch "aapl" 30).1.map
        (fun r => r.symbol)) = ["aapl"] ∧
    upperStr "aapl" ≠ "aapl" := by decide

/-- C8 amended: the ingestion service persists the symbol exactly as the
caller passed it — no case normalization happens on the write path (the
read endpoints uppercase at query time instead), so persisted rows are
uppercase only when the caller's input already was. -/
theorem C8_symbol_persisted_verbatim
    (store : List StoredRow)
    (fetch : String → Nat → Except String (List ProviderBar))
    (fetchQuote : String → Except String (Option ProviderBar))
    (symbol : String) (days : Nat) (r : StoredRow) :
    (r ∈ (ingest_historical_data store fetch symbol days).1 →
      r ∈ store ∨ r.symbol = symbol) ∧
    (r ∈ (ingest_current_quote store fetchQuote symbol).1 →
      r ∈ store ∨ r.symbol = symbol) := by
  constructor
  · intro hr
    unfold ingest_historical_data at hr
    cases hf : fetch symbol days with
    | error e => rw [hf] at hr; exact Or.inl hr
    | ok hist =>
        rw [hf] at hr
        cases hist with
        | nil => exact Or.inl hr
        | cons b t =>
            simp only [List.map_cons, repository_save_batch] at hr
            rcases List.mem_append.mp hr with h | h
            · exact Or.inl h
            · right
              rcases List.mem_cons.mp h with h1 | h1
              · rw [h1]; rfl
              · rcases List.mem_map.mp h1 with ⟨m, hm, hpr⟩
                rcases List.mem_map.mp hm with ⟨bar, _, hmb⟩
                rw [← hpr, ← hmb]; rfl
  · intro hr
    unfold ingest_current_quote at hr
    cases hf : fetchQuote symbol with
    | error e => rw [hf] at hr; exact Or.inl hr
    | ok ob =>
        rw [hf] at hr
        cases ob with
        | none => exact Or.inl hr
        | some bar =>
            simp only [repository_save] at hr
            rcases List.mem_append.mp hr with h | h
            · exact Or.inl h
            · right
              rw [List.mem_singleton.mp h]; rfl

/-- C8 amended witness: the row stored for input "aapl" carries "aapl". -/
theorem C8_witness :
    prepareRow (marketDataOfBar "aapl"
        { timestamp := 86400, open_price := 100, high := 101, low := 99,
          close := 100, volume := 1000 })
      ∈ (ingest_historical_data [] c8fetch "aapl" 30).1 ∧
    (prepareRow (marketDataOfBar "aapl"
        { timestamp := 86400, open_price := 100, high := 101, low := 99,
          close := 100, volume := 1000 }) ∈ ([] : List StoredRow) ∨
      (prepareRow (marketDataOfBar "aapl"
        { timestamp := 86400, open_price := 100, high := 101, low := 99,
          close := 100, volume := 1000 })).symbol = "aapl") :=
  ⟨by decide,
    (C8_symbol_persisted_verbatim [] c8fetch (fun _ => .ok none) "aapl" 30
      (prepareRow (marketDataOfBar "aapl"
        { timestamp := 86400, open_price := 100, high := 101, low := 99,
          close := 100, volume := 1000 }))).1 (by decide)⟩

/-- A provider returning one bar on day 1 (timestamp 86400). -/
def c1fetch : String → Nat → Except String (List ProviderBar) := fun _ _ =>
  .ok [{ timestamp := 86400, open_price := 10, high := 12, low := 9,
         close := 11, volume := 1000 }]

/-- C1 counterexample: ingesting the same day twice for the same symbol
doubles the stored row count for that (symbol, date) pair — the insert path
appends unconditionally into a plain `MergeTree` table, so the second
ingestion is not an overwrite or upsert. -/
theorem C1_counterexample :
    countPair (ingest_historical_data [] c1fetch "AAPL" 30).1 "AAPL" 1 = 1 ∧
    countPair (ingest_historical_data
        (ingest_historical_data [] c1fetch "AAPL" 30).1
        c1fetch "AAPL" 30).1 "AAPL" 1 = 2 := by decide

/-- C1 amended: ingestion appends rather than upserts.  Each run of
`ingest_historical_data` adds, for every (symbol, date) pair, exactly as
many rows as the fetched frame holds bars on that date, on top of whatever
the store already holds; running it twice therefore adds twice that many
rows — the (symbol, trading date) uniqueness invariant is not enforced by
any ingestion operation. -/
theorem C1_repeat_ingestion_appends
    (store : List StoredRow)
    (fetch : String → Nat → Except String (List ProviderBar))
    (symbol : String) (days : Nat) (hist : List ProviderBar) (d : Int)
    (hf : fetch symbol days = .ok hist) :
    countPair (ingest_historical_data store fetch symbol days).1 symbol d
      = countPair store symbol d
        + (hist.filter (fun b => toDate b.timestamp = d)).length ∧
    countPair (ingest_historical_data
        (ingest_historical_data store fetch symbol days).1
        fetch symbol days).1 symbol d
      = countPair store symbol d
        + 2 * (hist.filter (fun b => toDate b.timestamp = d)).length := by
  have hmap : ∀ (hist' : List ProviderBar),
      countPair ((hist'.map (marketDataOfBar symbol)).map prepareRow) symbol d
        = (hist'.filter (fun b => toDate b.timestamp = d)).length := by
    intro hist'
    unfold countPair
    rw [List.map_map, List.filter_map, List.length_map]
    apply congrArg List.length
    apply List.filter_congr
    intro a _
    simp [Function.comp, prepareRow, marketDataOfBar]
  have happ : ∀ (st l : List StoredRow),
      countPair (st ++ l) symbol d = countPair st symbol d + countPair l symbol d := by
    intro st l
    unfold countPair
    rw [List.filter_append, List.length_append]
  have key : ∀ st : List StoredRow,
      countPair (ingest_historical_data st fetch symbol days).1 symbol d
        = countPair st symbol d
          + (hist.filter (fun b => toDate b.timestamp = d)).length := by
    intro st
    unfold ingest_historical_data
    rw [hf]
    cases hist with
    | nil => simp
    | cons b t =>
        show countPair
            (st ++ ((b :: t).map (marketDataOfBar symbol)).map prepareRow) symbol d
          = countPair st symbol d
            + ((b :: t).filter (fun x => toDate x.timestamp = d)).length
        rw [happ, hmap]
  exact ⟨key store, by rw [key, key]; ring⟩

/-- A stored bar whose `open` value is the number 0. -/
def c6row : OhlcvRow :=
  { ticker := "AAPL", datetime := 86400, open_price := some 0,
    high := some 2, low := some 1, close := some 2, volume := some 500 }

/-- C6 counterexample: a bar whose underlying `open` value is 0 is rendered
by the per-symbol read endpoint with `open` equal to the number 0, not
`null` — the view only maps `None` to `null` (`is not None` check), so a
zero value does appear as 0 in the response. -/
theorem C6_counterexample :
    c6row.open_price = some 0 ∧
    (get_marketdata_by_symbol [c6row] "AAPL" none none 1 100 1).data.map
        (fun b => b.open_price) = [some 0] := by decide

/-- `x if x else None`: `null` exactly on `None` or `0`. -/
theorem pyTruthy_none_iff (v : Option Int) :
    (if pyTruthy v then v else none) = none ↔ v = none ∨ v = some 0 := by
  cases v with
  | none => simp [pyTruthy]
  | some x =>
      by_cases hx : x = 0
      · simp [pyTruthy, hx]
      · simp [pyTruthy, hx]

/-- C6 amended: in the marketdata read endpoints' bar rendering every
numeric field is `null` exactly when the underlying cell is absent
(`None`) — a stored 0 is rendered as the number 0; the zero-as-unset
convention holds only in `HistoricalQuote.to_dict`, and there only for the
price fields (`open`, `high`, `low`, `close`, `adjustedClose`), while its
`volume` is passed through unconverted. -/
theorem C6_null_rendering (r : OhlcvRow) (q : HistoricalQuote) :
    ((renderRow r).open_price = none ↔ r.open_price = none) ∧
    ((renderRow r).high = none ↔ r.high = none) ∧
    ((renderRow r).low = none ↔ r.low = none) ∧
    ((renderRow r).close = none ↔ r.close = none) ∧
    ((renderRow r).volume = none ↔ r.volume = none) ∧
    (q.to_dict.open_price = none ↔ q.open_price = none ∨ q.open_price = some 0) ∧
    (q.to_dict.high = none ↔ q.high = none ∨ q.high = some 0) ∧
    (q.to_dict.low = none ↔ q.low = none ∨ q.low = some 0) ∧
    (q.to_dict.close = none ↔ q.close = none ∨ q.close = some 0) ∧
    (q.to_dict.adjustedClose = none ↔
      q.adjusted_close = none ∨ q.adjusted_close = some 0) ∧
    q.to_dict.volume = q.volume :=
  ⟨Iff.rfl, Iff.rfl, Iff.rfl, Iff.rfl, Iff.rfl,
    pyTruthy_none_iff q.open_price, pyTruthy_none_iff q.high,
    pyTruthy_none_iff q.low, pyTruthy_none_iff q.close,
    pyTruthy_none_iff q.adjusted_close, rfl⟩

/-- The pagination contract the spec states for every paginated endpoint. -/
def paginationContract (page per_page : Int) (res : Option Pagination) : Prop :=
  ∃ p, res = some p ∧ p.page = page ∧ p.perPage = per_page ∧
    p.totalPages = ⌈(p.totalItems : ℚ) / (p.perPage : ℚ)⌉ ∧
    (p.hasNext = true ↔ p.page < p.totalPages) ∧
    (p.hasPrev = true ↔ 1 < p.page)

/-- Helper: the pagination object `paginationOf` returns for a positive
`per_page` satisfies the contract. -/
theorem paginationOf_contract (page per_page total : Int) (hpos : 0 < per_page)
    {p : Pagination} (hp : paginationOf page per_page total = .ok p) :
    paginationContract page per_page (some p) := by
  rcases paginationOf_ok page per_page total hpos with
    ⟨p', hp', h1, h2, h3, h4, h5, h6⟩
  have hpe : p' = p := by
    have hboth := hp'.symm.trans hp
    injection hboth
  subst hpe
  refine ⟨p', rfl, h1, h2, ?_, ?_, ?_⟩
  · rw [h4, h3, h2]
  · rw [h1]; exact h5
  · rw [h1]; exact h6

/-- C3: for every paginated endpoint, with a valid page and an in-bounds
positive `per_page`, the returned pagination object satisfies
`totalPages = ceil(totalItems / perPage)`, `hasNext ↔ page < totalPages`
and `hasPrev ↔ page > 1`. -/
theorem C3_pagination_contract
    (masters : List String) (store : List OhlcvRow) (symbol : String)
    (f t today page per_page : Int)
    (hpage : 1 ≤ page) (hper1 : 1 ≤ per_page) (hper2 : per_page ≤ 100)
    (hft : f ≤ t) :
    paginationContract page per_page (get_symbols masters page per_page).pagination ∧
    paginationContract page per_page
      (get_marketdata_by_symbol store symbol (some f) (some t)
        page per_page today).pagination ∧
    paginationContract page per_page
      (get_latest_marketdata store none page per_page true []).pagination := by
  have hpos : 0 < per_page := hper1
  have hmin100 : min per_page 100 = per_page := min_eq_left hper2
  have hmin1000 : min per_page 1000 = per_page :=
    min_eq_left (le_trans hper2 (by norm_num))
  have hnotlt : ¬ page < 1 := not_lt.mpr hpage
  refine ⟨?_, ?_, ?_⟩
  · rcases paginationOf_ok page per_page (masters.dedup.length : Int) hpos with
      ⟨p, hp, -, -, -, -, -, -⟩
    have hres : (get_symbols masters page per_page).pagination = some p := by
      unfold get_symbols
      rw [if_neg hnotlt, hmin100]
      simp only [hp]
    rw [hres]
    exact paginationOf_contract page per_page _ hpos hp
  · have hnotgt : ¬ ((resolveDateRange (some f) (some t) today).1 >
        (resolveDateRange (some f) (some t) today).2) := by
      show ¬ (f > t)
      exact not_lt.mpr hft
    rcases paginationOf_ok page per_page
        ((store.filter (fun r =>
          r.ticker = upperStr symbol ∧
          (resolveDateRange (some f) (some t) today).1 ≤ toDate r.datetime ∧
          toDate r.datetime ≤ (resolveDateRange (some f) (some t) today).2)).length : Int)
        hpos with ⟨p, hp, -, -, -, -, -, -⟩
    have hres : (get_marketdata_by_symbol store symbol (some f) (some t)
        page per_page today).pagination = some p := by
      unfold get_marketdata_by_symbol
      rw [if_neg hnotlt, hmin1000]
      simp only [if_neg hnotgt, hp]
    rw [hres]
    exact paginationOf_contract page per_page _ hpos hp
  · rcases paginationOf_ok page per_page ((distinctTickers store).length : Int)
        hpos with ⟨p, hp, -, -, -, -, -, -⟩
    have hres : (get_latest_marketdata store none page per_page true []).pagination
        = some p := by
      unfold get_latest_marketdata
      rw [if_neg hnotlt, hmin100]
      simp only [hp]
    rw [hres]
    exact paginationOf_contract page per_page _ hpos hp

/-- C3 witness: page 2 of a five-ticker catalog at one item per page, a
dated window on one symbol, and the latest endpoint over the same store. -/
theorem C3_witness :
    1 ≤ (2 : Int) ∧ 1 ≤ (1 : Int) ∧ (1 : Int) ≤ 100 ∧ (0 : Int) ≤ 10 ∧
    (paginationContract 2 1 (get_symbols ["A", "B", "C", "D", "E"] 2 1).pagination ∧
    paginationContract 2 1
      (get_marketdata_by_symbol [c6row] "AAPL" (some 0) (some 10) 2 1 10).pagination ∧
    paginationContract 2 1
      (get_latest_marketdata [c6row] none 2 1 true []).pagination) :=
  ⟨by norm_num, by norm_num, by norm_num, by norm_num,
    C3_pagination_contract ["A", "B", "C", "D", "E"] [c6row] "AAPL"
      0 10 10 2 1 (by norm_num) (by norm_num) (by norm_num) (by norm_num)⟩

theorem distinctTickers_nodup (store : List OhlcvRow) :
    (distinctTickers store).Nodup := by
  unfold distinctTickers
  exact List.nodup_dedup _

theorem toDate_mono {a b : Int} (h : a ≤ b) : toDate a ≤ toDate b := by
  unfold toDate
  rw [Int.fdiv_eq_ediv _ (by norm_num), Int.fdiv_eq_ediv _ (by norm_num)]
  exact Int.ediv_le_ediv (by norm_num) h

/-- At most one rendered row per ticker value. -/
def uniquePerTicker (l : List RenderedBar) : Prop :=
  ∀ t, (l.filter (fun b => b.ticker = t)).length ≤ 1

/-- Every rendered row is the rendering of a stored row whose date is
maximal among the store's rows for its ticker. -/
def latestFromStore (store : List OhlcvRow) (l : List RenderedBar) : Prop :=
  ∀ b ∈ l, ∃ row ∈ store, b = renderRow row ∧
    ∀ x ∈ store, x.ticker = row.ticker →
      toDate x.datetime ≤ toDate row.datetime

theorem uniquePerTicker_nil : uniquePerTicker [] := by
  intro t
  simp

theorem latestFromStore_nil (store : List OhlcvRow) : latestFromStore store [] := by
  intro b hb
  cases hb

/-- Rows fetched per distinct ticker have pairwise distinct tickers. -/
theorem fetch_pairwise (store : List OhlcvRow) {c : List String} (hc : c.Nodup) :
    (c.filterMap (fetch_latest_for_ticker store)).Pairwise
      (fun a b => a.ticker ≠ b.ticker) :=
  filterMap_key_pairwise (fetch_latest_for_ticker store) (fun b => b.ticker)
    (fun _ _ h => fetch_latest_ticker h) hc

/-- Two fetched rows with equal tickers are equal (the fetch is a function
of the ticker). -/
theorem fetch_ticker_inj (store : List OhlcvRow) (c : List String) :
    ∀ a ∈ c.filterMap (fetch_latest_for_ticker store),
      ∀ b ∈ c.filterMap (fetch_latest_for_ticker store),
        a.ticker = b.ticker → a = b := by
  intro a ha b hb heq
  rcases List.mem_filterMap.mp ha with ⟨ta, _, hfa⟩
  rcases List.mem_filterMap.mp hb with ⟨tb, _, hfb⟩
  have hta : ta = a.ticker := (fetch_latest_ticker hfa).symm
  have htb : tb = b.ticker := (fetch_latest_ticker hfb).symm
  rw [hta] at hfa
  rw [htb, ← heq] at hfb
  have := hfa.symm.trans hfb
  injection this

/-- A ticker-sorted symbol list fetches into a ticker-sorted row list. -/
theorem fetch_sorted (store : List OhlcvRow) :
    ∀ {l : List String}, l.Pairwise stringLe →
      (l.filterMap (fetch_latest_for_ticker store)).Pairwise barLe := by
  intro l
  induction l with
  | nil => intro _; simp
  | cons t l ih =>
    intro h
    have hpc := List.pairwise_cons.mp h
    rw [List.filterMap_cons]
    cases hf : fetch_latest_for_ticker store t with
    | none => exact ih hpc.2
    | some b =>
        refine List.Pairwise.cons ?_ (ih hpc.2)
        intro y hy
        rcases List.mem_filterMap.mp hy with ⟨t', ht', hft'⟩
        show stringLe b.ticker y.ticker
        rw [fetch_latest_ticker hf, fetch_latest_ticker hft']
        exact hpc.1 t' ht'

/-- The parallel branch output: at most one row per ticker and each row is
a latest-row rendering, for any duplicate-free completion order. -/
theorem parallel_props (store : List OhlcvRow) {completion : List String}
    (hc : completion.Nodup) :
    uniquePerTicker (get_latest_parallel store completion) ∧
    latestFromStore store (get_latest_parallel store completion) := by
  constructor
  · intro t
    have hpw : (completion.filterMap (fetch_latest_for_ticker store)).Pairwise
        (fun a b => a.ticker ≠ b.ticker) := fetch_pairwise store hc
    have hpw' : (get_latest_parallel store completion).Pairwise
        (fun a b => a.ticker ≠ b.ticker) := by
      unfold get_latest_parallel
      exact ((List.perm_insertionSort barLe _).pairwise_iff
        (fun h heq => h heq.symm)).mpr hpw
    exact length_filter_le_one_of_pairwise (fun b : RenderedBar => b.ticker) hpw' t
  · intro b hb
    unfold get_latest_parallel at hb
    rw [List.mem_insertionSort] at hb
    rcases List.mem_filterMap.mp hb with ⟨t, _, hft⟩
    rcases fetch_latest_spec hft with ⟨row, hrow, hbrow⟩
    rcases latestRow_spec hrow with ⟨hmem, hticker, hmax⟩
    refine ⟨row, hmem, hbrow, ?_⟩
    intro x hx hxt
    exact toDate_mono (hmax x hx (hticker ▸ hxt))

/-- The rank-1 pipeline output (sorted distinct tickers, one latest row
each, sliced, rendered): at most one row per ticker and each row a
latest-row rendering. -/
theorem pipeline_props (store : List OhlcvRow) (base : List String)
    (hb : base.Nodup) (per off : Nat) :
    uniquePerTicker (((((base.insertionSort stringLe).filterMap
        (latestRow store)).drop off).take per).map renderRow) ∧
    latestFromStore store (((((base.insertionSort stringLe).filterMap
        (latestRow store)).drop off).take per).map renderRow) := by
  have hsorted_nodup : (base.insertionSort stringLe).Nodup :=
    (List.perm_insertionSort stringLe base).symm.nodup hb
  have hpw : ((base.insertionSort stringLe).filterMap (latestRow store)).Pairwise
      (fun a b => a.ticker ≠ b.ticker) :=
    filterMap_key_pairwise (latestRow store) (fun r => r.ticker)
      (fun _ _ h => (latestRow_spec h).2.1) hsorted_nodup
  have hsub : ((((base.insertionSort stringLe).filterMap
      (latestRow store)).drop off).take per).Sublist
        ((base.insertionSort stringLe).filterMap (latestRow store)) :=
    (List.take_sublist _ _).trans (List.drop_sublist _ _)
  have hpw2 := List.Pairwise.sublist hsub hpw
  constructor
  · intro t
    have hpwm : (((((base.insertionSort stringLe).filterMap
        (latestRow store)).drop off).take per).map renderRow).Pairwise
          (fun a b => a.ticker ≠ b.ticker) :=
      List.pairwise_map.mpr hpw2
    exact length_filter_le_one_of_pairwise (fun b : RenderedBar => b.ticker) hpwm t
  · intro b hb'
    rcases List.mem_map.mp hb' with ⟨row, hrow, hbrow⟩
    have hrow' : row ∈ (base.insertionSort stringLe).filterMap (latestRow store) :=
      hsub.mem hrow
    rcases List.mem_filterMap.mp hrow' with ⟨t, _, hlt⟩
    rcases latestRow_spec hlt with ⟨hmem, hticker, hmax⟩
    refine ⟨row, hmem, hbrow.symm, ?_⟩
    intro x hx hxt
    exact toDate_mono (hmax x hx (hticker ▸ hxt))

/-- Case analysis of the data returned by `get_latest_marketdata`: empty
(validation failure or the 500 path), the parallel branch, the sequential
branch, or the all-symbols rank-1 branch. -/
theorem get_latest_data_cases (store : List OhlcvRow)
    (symbols_param : Option (List String)) (page per_page : Int)
    (use_parallel : Bool) (completion : List String) :
    (get_latest_marketdata store symbols_param page per_page use_parallel
      completion).data = [] ∨
    (∃ syms, symbols_param = some syms ∧
      (get_latest_marketdata store symbols_param page per_page use_parallel
        completion).data = get_latest_parallel store completion) ∨
    (∃ syms, symbols_param = some syms ∧
      (get_latest_marketdata store symbols_param page per_page use_parallel
        completion).data = get_latest_sequential store syms
          (min per_page 100).toNat (((page - 1) * min per_page 100).toNat)) ∨
    (get_latest_marketdata store symbols_param page per_page use_parallel
      completion).data = ((((rank1RowsAll store).drop
        (((page - 1) * min per_page 100).toNat)).take
          (min per_page 100).toNat).map renderRow) := by
  unfold get_latest_marketdata
  by_cases hlt : page < 1
  · rw [if_pos hlt]
    exact Or.inl rfl
  · rw [if_neg hlt]
    cases symbols_param with
    | none =>
        cases hpag : paginationOf page (min per_page 100)
            ((distinctTickers store).length : Int) with
        | error e =>
            left
            simp only [hpag]
        | ok p =>
            refine Or.inr (Or.inr (Or.inr ?_))
            simp only [hpag]
    | some syms =>
        by_cases hpar : use_parallel ∧ syms.length > 1
        · cases hpag : paginationOf page (min per_page 100)
              (syms.length : Int) with
          | error e =>
              left
              simp only [hpag, if_pos hpar]
          | ok p =>
              refine Or.inr (Or.inl ⟨syms, rfl, ?_⟩)
              simp only [hpag, if_pos hpar]
        · cases hpag : paginationOf page (min per_page 100)
              (syms.length : Int) with
          | error e =>
              left
              simp only [hpag, if_neg hpar]
          | ok p =>
              refine Or.inr (Or.inr (Or.inl ⟨syms, rfl, ?_⟩))
              simp only [hpag, if_neg hpar]

/-- C2: `get_latest_marketdata` returns at most one row per distinct
symbol, and each returned row renders a stored row whose date is the
maximum date present for that symbol in the store — on every branch
(parallel, sequential with symbols, all-symbols), for every requested
symbol set (duplicate-free list) and every completion order of the
concurrent fetches. -/
theorem C2_latest_at_most_one_max_date
    (store : List OhlcvRow) (symbols_param : Option (List String))
    (page per_page : Int) (use_parallel : Bool) (completion : List String)
    (hnodup : ∀ syms, symbols_param = some syms → syms.Nodup)
    (hcomp : ∀ syms, symbols_param = some syms →
      completion.Perm (parallelSlice syms (min per_page 100).toNat
        (((page - 1) * min per_page 100).toNat))) :
    uniquePerTicker (get_latest_marketdata store symbols_param page per_page
      use_parallel completion).data ∧
    latestFromStore store (get_latest_marketdata store symbols_param page
      per_page use_parallel completion).data := by
  rcases get_latest_data_cases store symbols_param page per_page use_parallel
    completion with h | ⟨syms, hs, h⟩ | ⟨syms, hs, h⟩ | h
  · rw [h]
    exact ⟨uniquePerTicker_nil, latestFromStore_nil store⟩
  · rw [h]
    have hslice : (parallelSlice syms (min per_page 100).toNat
        (((page - 1) * min per_page 100).toNat)).Nodup :=
      ((List.take_sublist _ _).trans (List.drop_sublist _ _)).nodup
        (hnodup syms hs)
    exact parallel_props store (((hcomp syms hs).symm).nodup hslice)
  · rw [h]
    unfold get_latest_sequential rank1Rows
    exact pipeline_props store _ ((List.nodup_dedup _).filter _) _ _
  · rw [h]
    unfold rank1RowsAll
    exact pipeline_props store _ (List.nodup_dedup _) _ _

/-- A store with two AAPL days and one MSFT day. -/
def c2store : List OhlcvRow :=
  [{ ticker := "AAPL", datetime := 86400, open_price := some 1,
     high := some 1, low := some 1, close := some 1, volume := some 1 },
   { ticker := "AAPL", datetime := 172800, open_price := some 2,
     high := some 2, low := some 2, close := some 2, volume := some 2 },
   { ticker := "MSFT", datetime := 86400, open_price := some 3,
     high := some 3, low := some 3, close := some 3, volume := some 3 }]

/-- C2 witness: two requested symbols fetched in request order under the
parallel branch. -/
theorem C2_witness :
    (∀ syms : List String, some ["MSFT", "AAPL"] = some syms → syms.Nodup) ∧
    (∀ syms : List String, some ["MSFT", "AAPL"] = some syms →
      (["MSFT", "AAPL"] : List String).Perm
        (parallelSlice syms (min (50 : Int) 100).toNat
          ((((1 : Int) - 1) * min (50 : Int) 100).toNat))) ∧
    (uniquePerTicker (get_latest_marketdata c2store (some ["MSFT", "AAPL"])
        1 50 true ["MSFT", "AAPL"]).data ∧
      latestFromStore c2store (get_latest_marketdata c2store
        (some ["MSFT", "AAPL"]) 1 50 true ["MSFT", "AAPL"]).data) :=
  ⟨fun _ h => by cases h; decide,
    fun _ h => by cases h; decide,
    C2_latest_at_most_one_max_date c2store (some ["MSFT", "AAPL"]) 1 50 true
      ["MSFT", "AAPL"] (fun _ h => by cases h; decide)
      (fun _ h => by cases h; decide)⟩

/-- Rows for two tickers, "A" on day 1 and "B" on day 2. -/
def c4rowA : OhlcvRow :=
  { ticker := "A", datetime := 86400, open_price := some 1, high := some 1,
    low := some 1, close := some 1, volume := some 1 }

def c4rowB : OhlcvRow :=
  { ticker := "B", datetime := 172800, open_price := some 2, high := some 2,
    low := some 2, close := some 2, volume := some 2 }

/-- C4 counterexample: with the explicit symbol list ["B", "A"] (more than
one symbol), page 1 and per_page 1, the parallel path — under the valid
completion order that is exactly the submitted slice — returns B's row,
while the sequential partition-rank path returns A's row: the parallel path
slices the request-ordered symbol list before fetching, the sequential path
paginates after ordering by ticker. -/
theorem C4_counterexample :
    (["B"] : List String).Perm
      (parallelSlice ["B", "A"] (min (1 : Int) 100).toNat
        ((((1 : Int) - 1) * min (1 : Int) 100).toNat)) ∧
    (["B", "A"] : List String).length > 1 ∧
    (get_latest_marketdata [c4rowA, c4rowB] (some ["B", "A"]) 1 1 true
        ["B"]).data
      ≠ (get_latest_marketdata [c4rowA, c4rowB] (some ["B", "A"]) 1 1 false
        ["B"]).data := by decide

/-- C4 amended: the parallel path's output is independent of the completion
order of the concurrent fetches (any two completion orders of the same
slice give the same sorted output); but it equals the sequential
partition-rank path's output only under extra conditions — when the
requested symbol list is duplicate-free, already sorted ascending, and
every requested symbol has rows in the store.  In general the two paths
differ, because the parallel path paginates the request-ordered symbol
list before fetching while the sequential path paginates after ordering
rows by ticker. -/
theorem C4_parallel_order_independent_and_conditional_agreement :
    (∀ (store : List OhlcvRow) (syms : List String) (per off : Nat)
        (c1 c2 : List String),
      c1.Perm (parallelSlice syms per off) →
      c2.Perm (parallelSlice syms per off) →
      get_latest_parallel store c1 = get_latest_parallel store c2) ∧
    (∀ (store : List OhlcvRow) (syms : List String) (per off : Nat)
        (c : List String),
      syms.Nodup → syms.Sorted stringLe →
      (∀ s ∈ syms, s ∈ distinctTickers store) →
      c.Perm (parallelSlice syms per off) →
      get_latest_parallel store c = get_latest_sequential store syms per off) := by
  constructor
  · intro store syms per off c1 c2 h1 h2
    unfold get_latest_parallel
    apply sorted_eq_of_perm_of_ticker_inj
    · exact ((List.perm_insertionSort barLe _).trans
        ((h1.trans h2.symm).filterMap _)).trans
          (List.perm_insertionSort barLe _).symm
    · exact List.sorted_insertionSort barLe _
    · exact List.sorted_insertionSort barLe _
    · intro a ha b hb heq
      rw [List.mem_insertionSort] at ha hb
      exact fetch_ticker_inj store c1 a ha b hb heq
  · intro store syms per off c hnd hsort hpres hc
    have hbase : ((distinctTickers store).filter
        (fun t => t ∈ syms)).insertionSort stringLe = syms := by
      apply List.eq_of_perm_of_sorted (r := stringLe)
      · refine (List.perm_insertionSort stringLe _).trans ?_
        rw [List.perm_ext_iff_of_nodup ((distinctTickers_nodup store).filter _) hnd]
        intro s
        constructor
        · intro hs
          exact of_decide_eq_true (List.mem_filter.mp hs).2
        · intro hs
          exact List.mem_filter.mpr ⟨hpres s hs, decide_eq_true hs⟩
      · exact List.sorted_insertionSort stringLe _
      · exact hsort
    have hall : ∀ s ∈ syms, (latestRow store s).isSome := by
      intro s hs
      exact latestRow_isSome_of_mem (List.mem_dedup.mp (hpres s hs))
    unfold get_latest_parallel get_latest_sequential rank1Rows
    rw [hbase]
    rw [filterMap_drop_of_isSome (latestRow store) syms off hall,
        filterMap_take_of_isSome (latestRow store) (syms.drop off) per
          (fun a ha => hall a ((List.drop_sublist _ _).subset ha))]
    rw [← filterMap_fetch_eq]
    apply sorted_eq_of_perm_of_ticker_inj
    · exact (List.perm_insertionSort barLe _).trans (hc.filterMap _)
    · exact List.sorted_insertionSort barLe _
    · apply fetch_sorted
      exact List.Pairwise.sublist
        ((List.take_sublist _ _).trans (List.drop_sublist _ _)) hsort
    · intro a ha b hb heq
      rw [List.mem_insertionSort] at ha hb
      exact fetch_ticker_inj store c a ha b hb heq

/-- C4 amended witness: completion orders ["B", "A"] and ["A", "B"] of the
slice of ["A", "B"] agree with each other and with the sequential path. -/
theorem C4_witness :
    (["B", "A"] : List String).Perm (parallelSlice ["A", "B"] 2 0) ∧
    (["A", "B"] : List String).Perm (parallelSlice ["A", "B"] 2 0) ∧
    (["A", "B"] : List String).Nodup ∧
    (["A", "B"] : List String).Sorted stringLe ∧
    (∀ s ∈ (["A", "B"] : List String),
      s ∈ distinctTickers [c4rowA, c4rowB]) ∧
    get_latest_parallel [c4rowA, c4rowB] ["B", "A"]
      = get_latest_parallel [c4rowA, c4rowB] ["A", "B"] ∧
    get_latest_parallel [c4rowA, c4rowB] ["B", "A"]
      = get_latest_sequential [c4rowA, c4rowB] ["A", "B"] 2 0 :=
  ⟨by decide, by decide, by decide, by decide, by decide,
    C4_parallel_order_independent_and_conditional_agreement.1
      [c4rowA, c4rowB] ["A", "B"] 2 0 ["B", "A"] ["A", "B"]
      (by decide) (by decide),
    C4_parallel_order_independent_and_conditional_agreement.2
      [c4rowA, c4rowB] ["A", "B"] 2 0 ["B", "A"]
      (by decide) (by decide) (by decide) (by decide)⟩

/-- The single provider bar returned by `c1fetch`. -/
def c1bar : ProviderBar :=
  { timestamp := 86400, open_price := 10, high := 12, low := 9, close := 11,
    volume := 1000 }

/-- C1 amended witness: one bar on day 1; each ingestion adds one row for
(AAPL, day 1), two ingestions add two. -/
theorem C1_witness :
    c1fetch "AAPL" 30 = .ok [c1bar] ∧
    (countPair (ingest_historical_data [] c1fetch "AAPL" 30).1 "AAPL" 1
      = countPair [] "AAPL" 1
        + (([c1bar] : List ProviderBar).filter
            (fun b => toDate b.timestamp = 1)).length ∧
    countPair (ingest_historical_data
        (ingest_historical_data [] c1fetch "AAPL" 30).1
        c1fetch "AAPL" 30).1 "AAPL" 1
      = countPair [] "AAPL" 1
        + 2 * (([c1bar] : List ProviderBar).filter
            (fun b => toDate b.timestamp = 1)).length) :=
  ⟨rfl, C1_repeat_ingestion_appends [] c1fetch "AAPL" 30 [c1bar] 1 rfl⟩
